import Mathlib

/-!
Shallow embedding of the event-sourced account ledger
(`src/lib/accounts/models/account.ts`, repository layer
`src/unnamed/part_000`, listing/stream layer
`src/lib/accounts/account.stream.ts`, collapsed forwarder
`src/lib/main.stream.ts`).

The per-account event store is modelled as a `List AccountEvent` kept in
ascending version order: DynamoDB stores events under the key
`(id, version)` and every append writes strictly larger versions, so list
order coincides with the sort-key order the queries rely on.  Machine
numbers (`availableTokens`, `amount`) are modelled as `Int`; `version` as
`Nat`; timestamps as opaque strings threaded through as parameters.
-/

namespace AccountsES

/-- The `Account` record (reconstructed state), fields as in the TS type. -/
structure Account where
  auth0Id : String
  availableTokens : Int
  email : String
  id : String
  timestamp : String
  version : Nat
deriving DecidableEq

/-- The `AccountEvent` union, discriminated by the `type` tag
(`CREATED | SNAPSHOT | CREDITED | DEBITED`).  `Created` and `Snapshot`
events carry exactly the fields of `Account` plus the tag, so they are
modelled as carrying an `Account`. -/
inductive AccountEvent where
  | created (account : Account)
  | snapshot (account : Account)
  | credited (id : String) (amount : Int) (timestamp : String) (version : Nat)
  | debited (id : String) (amount : Int) (timestamp : String) (version : Nat)
deriving DecidableEq

/-- The `version` attribute of an event (the DynamoDB sort key). -/
def AccountEvent.version : AccountEvent → Nat
  | .created a => a.version
  | .snapshot a => a.version
  | .credited _ _ _ v => v
  | .debited _ _ _ v => v

/-- The predicate `item.type === EventType.SNAPSHOT` used by `get`. -/
def AccountEvent.isSnapshot : AccountEvent → Bool
  | .snapshot _ => true
  | _ => false

/-- Whether the event is a `CREATED` event. -/
def AccountEvent.isCreated : AccountEvent → Bool
  | .created _ => true
  | _ => false

/-- Whether the event is one of the mutating kinds (`CREDITED`/`DEBITED`). -/
def AccountEvent.isMutating : AccountEvent → Bool
  | .credited _ _ _ _ => true
  | .debited _ _ _ _ => true
  | _ => false

/-- The `amount` attribute of a mutating event (0 for the kinds that do
not carry one, mirroring the `item.amount || 0` guard in the fold). -/
def AccountEvent.amount : AccountEvent → Int
  | .credited _ a _ _ => a
  | .debited _ a _ _ => a
  | _ => 0

/-- The TS cast `items[snapshotIdx] as Account`.  `get` only applies it to
the event found by the snapshot search, which is always a `SNAPSHOT`
event; the mutating branches model the fields a credit/debit item does
carry (`id`, `timestamp`, `version`) and are unreachable in `get`. -/
def AccountEvent.asAccount : AccountEvent → Account
  | .created a => a
  | .snapshot a => a
  | .credited id _ ts v => ⟨"", 0, "", id, ts, v⟩
  | .debited id _ ts v => ⟨"", 0, "", id, ts, v⟩

/-- `getAccountEvents` (repository): DynamoDB `Query` on the account's
partition with `ScanIndexForward: false` and `Limit: 10` — the (up to) 10
events with the highest versions, most recent first. -/
def getAccountEvents (store : List AccountEvent) : List AccountEvent :=
  (store.reverse).take 10

/-- `items.findIndex(item => item.type === EventType.SNAPSHOT)`, with
JavaScript's `-1` (and the subsequent falsy `items[-1]`) modelled as
`none`. -/
def findSnapshotIdx : List AccountEvent → Option Nat
  | [] => none
  | item :: rest =>
      if item.isSnapshot then some 0 else (findSnapshotIdx rest).map (· + 1)

/-- The reducer of `get`: `CREDITED` adds `amount`, `DEBITED` subtracts
`amount`, every event updates `version`; all other fields are spread from
the accumulator. -/
def foldEvent (state : Account) (item : AccountEvent) : Account :=
  match item with
  | .created a => { state with version := a.version }
  | .snapshot a => { state with version := a.version }
  | .credited _ amount _ v =>
      { state with availableTokens := state.availableTokens + amount, version := v }
  | .debited _ amount _ v =>
      { state with availableTokens := state.availableTokens - amount, version := v }

/-- The record returned by a successful `get`. -/
structure AccountDetails where
  account : Account
  snapshot : Account
  itemsSinceSnapshot : List AccountEvent
deriving DecidableEq

/-- `get(id)` — aggregate reconstruction: page the 10 most recent events,
locate the most recent snapshot, fold the events newer than it
(oldest-first) onto the snapshot state.  `null` is modelled as `none`. -/
def get (store : List AccountEvent) : Option AccountDetails :=
  let items := getAccountEvents store
  match findSnapshotIdx items with
  | none => none
  | some snapshotIdx =>
    match items[snapshotIdx]? with
    | none => none
    | some item =>
      let snapshot := item.asAccount
      let itemsSinceSnapshot := (items.take snapshotIdx).reverse
      let account := itemsSinceSnapshot.foldl foldEvent snapshot
      some ⟨account, snapshot, itemsSinceSnapshot⟩

/-- The conditional `TransactWriteCommand`: each `Put` carries an
`attribute_not_exists` condition on the item's `(id, version)` key, so the
whole batch succeeds iff none of the new events' versions is already
present; otherwise the transaction is cancelled (`none`) and nothing is
written. -/
def transactAppend (store : List AccountEvent) (newEvents : List AccountEvent) :
    Option (List AccountEvent) :=
  if newEvents.all fun e => store.all fun x => x.version ≠ e.version then
    some (store ++ newEvents)
  else
    none

/-- `createAccount` (repository): one transaction putting the version-1
`CREATED` event (conditioned on non-existence of the id) and the version-2
`SNAPSHOT` event mirroring it. -/
def createAccount (store : List AccountEvent) (c : Account) :
    Option (List AccountEvent) :=
  transactAppend store
    [AccountEvent.created c, AccountEvent.snapshot { c with version := 2 }]

/-- `creditAccount` (repository): conditional append of the optional
snapshot event followed by the credit event, as one transaction. -/
def creditAccount (store : List AccountEvent) (creditEvent : AccountEvent)
    (snapshotEvent : Option AccountEvent) : Option (List AccountEvent) :=
  match snapshotEvent with
  | some s => transactAppend store [s, creditEvent]
  | none => transactAppend store [creditEvent]

/-- `debitAccount` (repository): same transaction shape as `creditAccount`. -/
def debitAccount (store : List AccountEvent) (debitEvent : AccountEvent)
    (snapshotEvent : Option AccountEvent) : Option (List AccountEvent) :=
  match snapshotEvent with
  | some s => transactAppend store [s, debitEvent]
  | none => transactAppend store [debitEvent]

/-- Observable outcome of a ledger operation, paired below with the store
it leaves behind.  `nullResult` is a returned `null`; `insufficientError`
is the thrown `Error('Insufficient tokens for debit')`; `conflictError`
is a cancelled conditional transaction propagating to the caller. -/
inductive OpResult where
  | nullResult
  | insufficientError
  | conflictError
  | ok (details : AccountDetails)
deriving DecidableEq

/-- `create(id, {auth0Id, email})`: build the version-1 `CREATED` event
with `availableTokens: 1`, write it (with the mirroring snapshot) through
`createAccount`, then return `get(id)`. -/
def create (store : List AccountEvent) (id auth0Id email now : String) :
    OpResult × List AccountEvent :=
  let createEvent : Account :=
    { auth0Id := auth0Id, availableTokens := 1, email := email, id := id,
      timestamp := now, version := 1 }
  match createAccount store createEvent with
  | none => (.conflictError, store)
  | some store₂ =>
    match get store₂ with
    | none => (.nullResult, store₂)
    | some details => (.ok details, store₂)

/-- `credit({id, amount})`: reconstruct, build the next-version `CREDITED`
event (interleaving a snapshot of the current state when 9 or more events
have accumulated since the last snapshot), conditional-append, and return
the freshly reconstructed state. -/
def credit (store : List AccountEvent) (id : String) (amount : Int)
    (now : String) : OpResult × List AccountEvent :=
  match get store with
  | none => (.nullResult, store)
  | some accountDetails =>
    let currentAccount := accountDetails.account
    let version := currentAccount.version
    let snapshotEvent : Option AccountEvent :=
      if 9 ≤ accountDetails.itemsSinceSnapshot.length then
        some (.snapshot { currentAccount with version := version + 1 })
      else
        none
    let version := if 9 ≤ accountDetails.itemsSinceSnapshot.length then
        version + 1
      else
        version
    let creditEvent : AccountEvent := .credited id amount now (version + 1)
    match creditAccount store creditEvent snapshotEvent with
    | none => (.conflictError, store)
    | some store₂ =>
      match get store₂ with
      | none => (.nullResult, store₂)
      | some updated => (.ok updated, store₂)

/-- `debit({id, amount})`: same as `credit` but first throws
`Insufficient tokens for debit` (before building any write) when the
reconstructed balance is below the requested amount. -/
def debit (store : List AccountEvent) (id : String) (amount : Int)
    (now : String) : OpResult × List AccountEvent :=
  match get store with
  | none => (.nullResult, store)
  | some accountDetails =>
    let currentAccount := accountDetails.account
    if currentAccount.availableTokens < amount then
      (.insufficientError, store)
    else
      let version := currentAccount.version
      let snapshotEvent : Option AccountEvent :=
        if 9 ≤ accountDetails.itemsSinceSnapshot.length then
          some (.snapshot { currentAccount with version := version + 1 })
        else
          none
      let version := if 9 ≤ accountDetails.itemsSinceSnapshot.length then
          version + 1
        else
          version
      let debitEvent : AccountEvent := .debited id amount now (version + 1)
      match debitAccount store debitEvent snapshotEvent with
      | none => (.conflictError, store)
      | some store₂ =>
        match get store₂ with
        | none => (.nullResult, store₂)
        | some updated => (.ok updated, store₂)

/-- Outcome of the `getAccount` resolver
(`src/lib/accounts/account.resolver.ts`):
`const { account } = await get(id); return account;` — destructuring a
`null` reconstruction throws a `TypeError` instead of returning null. -/
inductive GetAccountOutcome where
  | typeError
  | success (account : Account)
deriving DecidableEq

/-- The `getAccount` resolver. -/
def getAccount (store : List AccountEvent) : GetAccountOutcome :=
  match get store with
  | none => .typeError
  | some details => .success details.account

/-! ### Listing index and pagination (`src/lib/accounts/account.stream.ts`) -/

/-- The denormalized listing entry written once at account creation. -/
structure AccountListItem where
  auth0Id : String
  email : String
  id : String
deriving DecidableEq

/-- The sort key produced by `formatAccountListItem`:
`{ pk: 'account', sk: account#${item.email} }` — derived from the contact
email alone. -/
def formatAccountListItemSk (item : AccountListItem) : String :=
  "account#" ++ item.email

/-- The listing `Put` (no condition expression): DynamoDB inserts the item
at its `(pk, sk)` key, silently replacing any existing item with the same
key.  The listing partition is modelled as a list kept in ascending
sort-key order, which is the order the paging query reads it in. -/
def putListItem : List AccountListItem → AccountListItem → List AccountListItem
  | [], item => [item]
  | existing :: rest, item =>
    if formatAccountListItemSk item < formatAccountListItemSk existing then
      item :: existing :: rest
    else if formatAccountListItemSk item = formatAccountListItemSk existing then
      item :: rest
    else
      existing :: putListItem rest item

/-- The listing writes performed by a sequence of account creations. -/
def buildListing (inputs : List AccountListItem) : List AccountListItem :=
  inputs.foldl putListItem []

/-- What a listing `Query` scans when given an `ExclusiveStartKey`: the
items whose sort key is strictly greater than the cursor key. -/
def itemsAfter (listing : List AccountListItem) (startKey : Option String) :
    List AccountListItem :=
  match startKey with
  | none => listing
  | some k => listing.filter fun item => k < formatAccountListItemSk item

/-- One page returned by `getAccountList`. -/
structure AccountListPage where
  accounts : List AccountListItem
  nextToken : Option String
deriving DecidableEq

/-- `getAccountList(pageSize, token)`: DynamoDB `Query` on the listing
partition with `Limit: pageSize`, resuming from the decoded token.  The
store reports a `LastEvaluatedKey` exactly when the scan stopped at the
limit (i.e. `pageSize` items matched so far and the page is full); the
code base64-round-trips it into `nextToken`, and returns an empty page
with no token when nothing matched. -/
def getAccountList (listing : List AccountListItem) (pageSize : Nat)
    (token : Option String) : AccountListPage :=
  let rest := itemsAfter listing token
  let accounts := rest.take pageSize
  if accounts.isEmpty then
    ⟨[], none⟩
  else
    let nextToken := if pageSize ≤ rest.length then
        accounts.getLast?.map formatAccountListItemSk
      else
        none
    ⟨accounts, nextToken⟩

/-- Drive `getAccountList` from a cursor until it stops handing back a
token, concatenating the pages; the boolean records whether the loop
terminated with no cursor within the allotted number of calls. -/
def listAllPagesAux (listing : List AccountListItem) (pageSize : Nat) :
    Option String → Nat → List AccountListItem × Bool
  | _, 0 => ([], false)
  | token, fuel + 1 =>
    let page := getAccountList listing pageSize token
    match page.nextToken with
    | none => (page.accounts, true)
    | some k =>
      let rest := listAllPagesAux listing pageSize (some k) fuel
      (page.accounts ++ rest.1, rest.2)

/-- The full enumeration starting from no cursor; `listing.length + 1`
calls always suffice for a positive page size. -/
def listAllPages (listing : List AccountListItem) (pageSize : Nat) :
    List AccountListItem × Bool :=
  listAllPagesAux listing pageSize none (listing.length + 1)

/-! ### Change forwarders (`account.stream.ts` handler, `main.stream.ts`) -/

/-- One DynamoDB stream record: the new image of a written event plus the
source stream ARN. -/
structure StreamRecord where
  newImage : AccountEvent
  eventSourceARN : String
deriving DecidableEq

/-- One EventBridge `PutEvents` entry as built by the handlers. -/
structure BusEntry where
  detail : AccountEvent
  detailType : String
  source : String
  resources : List String
deriving DecidableEq

/-- The string value of the `type` attribute of an event. -/
def eventTypeName : AccountEvent → String
  | .created _ => "CREATED"
  | .snapshot _ => "SNAPSHOT"
  | .credited _ _ _ _ => "CREDITED"
  | .debited _ _ _ _ => "DEBITED"

/-- The per-kind change forwarder (`src/lib/accounts/account.stream.ts`):
each record's new image becomes one entry with `DetailType: data.type`,
published as a single batch. -/
def streamHandler (records : List StreamRecord) : List BusEntry :=
  records.map fun record =>
    { detail := record.newImage
      detailType := eventTypeName record.newImage
      source := "myapp.accounts"
      resources := [record.eventSourceARN] }

/-- The collapsed-variant change forwarder (`src/lib/main.stream.ts`):
identical mapping but with the fixed tag `CREATED` for every record. -/
def mainStreamHandler (records : List StreamRecord) : List BusEntry :=
  records.map fun record =>
    { detail := record.newImage
      detailType := "CREATED"
      source := "myapp.accounts"
      resources := [record.eventSourceARN] }

/-! ### Operation sequences and the replay specification -/

/-- A ledger mutation request (the `amount` argument of
`creditAccount` / `debitAccount` at the API surface). -/
inductive Op where
  | credit (amount : Int)
  | debit (amount : Int)
deriving DecidableEq

/-- Run one operation, keeping the store only when the operation
succeeded (returned a reconstructed account). -/
def runOp (store : List AccountEvent) (id now : String) : Op → Option (List AccountEvent)
  | .credit a =>
    match credit store id a now with
    | (OpResult.ok _, store₂) => some store₂
    | _ => none
  | .debit a =>
    match debit store id a now with
    | (OpResult.ok _, store₂) => some store₂
    | _ => none

/-- Run a sequence of operations; `some` exactly when every operation in
the sequence succeeded. -/
def runOps (store : List AccountEvent) (id now : String) : List Op → Option (List AccountEvent)
  | [] => some store
  | op :: rest =>
    match runOp store id now op with
    | none => none
    | some store₂ => runOps store₂ id now rest

/-- Sum of the amounts of the credit operations in a sequence. -/
def sumCredits : List Op → Int
  | [] => 0
  | .credit a :: rest => a + sumCredits rest
  | .debit _ :: rest => sumCredits rest

/-- Sum of the amounts of the debit operations in a sequence. -/
def sumDebits : List Op → Int
  | [] => 0
  | .credit _ :: rest => sumDebits rest
  | .debit a :: rest => a + sumDebits rest

/-- The store produced by `create` on a fresh (empty) account partition. -/
def createdStore (id auth0Id email now : String) : List AccountEvent :=
  (create [] id auth0Id email now).2

/-- A per-account store reachable by `create` followed by some sequence of
successful credit/debit operations. -/
def Reachable (store : List AccountEvent) : Prop :=
  ∃ id auth0Id email now ops,
    runOps (createdStore id auth0Id email now) id now ops = some store

/-- One step of the specification-side fold over the entire raw history,
following the spec's words (§4.3/§8): the `Created` event is the base,
`Credited` adds its amount, `Debited` subtracts it, and `Snapshot` events
are compaction markers carrying no new information, so a raw replay
passes over them. -/
def replayStep : Option Account → AccountEvent → Option Account
  | _, .created a => some a
  | st, .snapshot _ => st
  | some st, .credited _ amount _ v =>
      some { st with availableTokens := st.availableTokens + amount, version := v }
  | some st, .debited _ amount _ v =>
      some { st with availableTokens := st.availableTokens - amount, version := v }
  | none, _ => none

/-- Specification-side reconstruction: fold the entire raw event history
from version 1 (used only as the comparison point of the refinement
claim; `get` above is the code's reconstruction). -/
def replayAccount (history : List AccountEvent) : Option Account :=
  history.foldl replayStep none

/-- The signed net amount of a list of events (credits minus debits). -/
def netAmount : List AccountEvent → Int
  | [] => 0
  | .credited _ a _ _ :: rest => a + netAmount rest
  | .debited _ a _ _ :: rest => netAmount rest - a
  | _ :: rest => netAmount rest

/-- The reachability invariant: the store decomposes into an arbitrary
history, the most recent snapshot, and at most 9 trailing mutating
events; all versions are bounded by the store length and the fold of the
tail onto the snapshot has the store length as version and `bal` as
balance. -/
def Inv (store : List AccountEvent) (bal : Int) : Prop :=
  ∃ pre a tail,
    store = pre ++ AccountEvent.snapshot a :: tail ∧
    (∀ e ∈ tail, e.isMutating = true) ∧
    tail.length ≤ 9 ∧
    (∀ e ∈ store, e.version ≤ store.length) ∧
    (tail.foldl foldEvent a).version = store.length ∧
    (tail.foldl foldEvent a).availableTokens = bal

/-- The events a successful `credit` appends, given the reconstruction it
read: the next-version `CREDITED` event, preceded by a snapshot of the
prior state when 9 or more events accumulated since the last snapshot. -/
def creditAppend (det : AccountDetails) (id : String) (amount : Int)
    (now : String) : List AccountEvent :=
  if 9 ≤ det.itemsSinceSnapshot.length then
    [AccountEvent.snapshot { det.account with version := det.account.version + 1 },
     AccountEvent.credited id amount now (det.account.version + 2)]
  else
    [AccountEvent.credited id amount now (det.account.version + 1)]

/-- The events a successful `debit` appends (same policy as `credit`). -/
def debitAppend (det : AccountDetails) (id : String) (amount : Int)
    (now : String) : List AccountEvent :=
  if 9 ≤ det.itemsSinceSnapshot.length then
    [AccountEvent.snapshot { det.account with version := det.account.version + 1 },
     AccountEvent.debited id amount now (det.account.version + 2)]
  else
    [AccountEvent.debited id amount now (det.account.version + 1)]

/-! ### Basic lemmas about the reconstruction -/

@[simp]
theorem isSnapshot_snapshot (a : Account) :
    (AccountEvent.snapshot a).isSnapshot = true := rfl

@[simp]
theorem version_created (a : Account) :
    (AccountEvent.created a).version = a.version := rfl

@[simp]
theorem version_snapshot (a : Account) :
    (AccountEvent.snapshot a).version = a.version := rfl

@[simp]
theorem version_credited (id : String) (amount : Int) (ts : String) (v : Nat) :
    (AccountEvent.credited id amount ts v).version = v := rfl

@[simp]
theorem version_debited (id : String) (amount : Int) (ts : String) (v : Nat) :
    (AccountEvent.debited id amount ts v).version = v := rfl

theorem findSnapshotIdx_append (l₁ l₂ : List AccountEvent) (e₀ : AccountEvent)
    (h : ∀ e ∈ l₁, e.isSnapshot = false) (h₀ : e₀.isSnapshot = true) :
    findSnapshotIdx (l₁ ++ e₀ :: l₂) = some l₁.length := by
  induction l₁ with
  | nil => simp [findSnapshotIdx, h₀]
  | cons x xs ih =>
    have hx : x.isSnapshot = false := h x (by simp)
    have hxs : ∀ e ∈ xs, e.isSnapshot = false := fun e he => h e (by simp [he])
    simp [findSnapshotIdx, hx, ih hxs]

/-- Reconstruction of a store of the shape
`pre ++ snapshot a :: tail`, where `tail` holds no snapshot and at most 9
events: `get` folds exactly `tail` (oldest-first) onto `a`. -/
theorem get_decomp (pre : List AccountEvent) (a : Account) (tail : List AccountEvent)
    (hns : ∀ e ∈ tail, e.isSnapshot = false) (hlen : tail.length ≤ 9) :
    get (pre ++ AccountEvent.snapshot a :: tail) =
      some ⟨tail.foldl foldEvent a, a, tail⟩ := by
  have hitems : getAccountEvents (pre ++ AccountEvent.snapshot a :: tail)
      = tail.reverse ++ AccountEvent.snapshot a :: pre.reverse.take (9 - tail.length) := by
    unfold getAccountEvents
    rw [List.reverse_append, List.reverse_cons, List.append_assoc,
      List.take_append_eq_append_take,
      List.take_of_length_le (by simpa using le_trans hlen (by norm_num))]
    have h10 : 10 - (tail.reverse).length = (9 - tail.length) + 1 := by
      simp only [List.length_reverse]; omega
    rw [h10]
    simp
  have hfind : findSnapshotIdx (getAccountEvents (pre ++ AccountEvent.snapshot a :: tail))
      = some tail.reverse.length := by
    rw [hitems]
    exact findSnapshotIdx_append _ _ _ (fun e he => hns e (List.mem_reverse.mp he)) rfl
  have helem : (getAccountEvents (pre ++ AccountEvent.snapshot a :: tail))[tail.reverse.length]?
      = some (AccountEvent.snapshot a) := by
    rw [hitems]
    rw [List.getElem?_append_right (le_refl _)]
    simp
  have htake : (getAccountEvents (pre ++ AccountEvent.snapshot a :: tail)).take tail.reverse.length
      = tail.reverse := by
    rw [hitems]
    exact List.take_left tail.reverse _
  simp only [get, hfind, helem, htake, List.reverse_reverse, AccountEvent.asAccount]

theorem isSnapshot_eq_false_of_isMutating (e : AccountEvent)
    (h : e.isMutating = true) : e.isSnapshot = false := by
  cases e <;> simp_all [AccountEvent.isMutating, AccountEvent.isSnapshot]

theorem transactAppend_of_fresh (store newEvents : List AccountEvent)
    (h : ∀ en ∈ newEvents, ∀ x ∈ store, x.version ≠ en.version) :
    transactAppend store newEvents = some (store ++ newEvents) := by
  unfold transactAppend
  rw [if_pos]
  simp only [List.all_eq_true, decide_eq_true_eq]
  exact h

/-! ### The reachability invariant and the operation step lemmas -/

/-- The store written by `create` on an empty partition. -/
theorem createdStore_eq (id auth0Id email now : String) :
    createdStore id auth0Id email now =
      [AccountEvent.created
        { auth0Id := auth0Id, availableTokens := 1, email := email, id := id,
          timestamp := now, version := 1 },
       AccountEvent.snapshot
        { auth0Id := auth0Id, availableTokens := 1, email := email, id := id,
          timestamp := now, version := 2 }] := by
  rfl

theorem Inv_createdStore (id auth0Id email now : String) :
    Inv (createdStore id auth0Id email now) 1 := by
  rw [createdStore_eq]
  refine ⟨[AccountEvent.created
      { auth0Id := auth0Id, availableTokens := 1, email := email, id := id,
        timestamp := now, version := 1 }],
    { auth0Id := auth0Id, availableTokens := 1, email := email, id := id,
      timestamp := now, version := 2 }, [], rfl, by simp, by simp, ?_, rfl, rfl⟩
  intro e he
  simp only [List.mem_append, List.mem_singleton, List.mem_cons,
    List.not_mem_nil, or_false] at he
  rcases he with h | h <;> subst h <;> simp [AccountEvent.version]

/-- A successful `credit` under the invariant: it returns the updated
reconstruction and appends exactly `creditAppend`, re-establishing the
invariant with the balance increased by the credited amount. -/
theorem credit_ok (store : List AccountEvent) (bal : Int) (id : String)
    (amt : Int) (now : String) (hInv : Inv store bal) :
    ∃ det det₂,
      get store = some det ∧
      credit store id amt now = (.ok det₂, store ++ creditAppend det id amt now) ∧
      Inv (store ++ creditAppend det id amt now) (bal + amt) ∧
      det₂.account.availableTokens = bal + amt := by
  obtain ⟨pre, a, tail, hstore, hmut, hlen, hver, hfver, hfbal⟩ := hInv
  have hns : ∀ e ∈ tail, e.isSnapshot = false :=
    fun e he => isSnapshot_eq_false_of_isMutating e (hmut e he)
  set acc := tail.foldl foldEvent a with hacc
  have hget : get store = some ⟨acc, a, tail⟩ := by
    rw [hstore, get_decomp pre a tail hns hlen, ← hacc]
  by_cases ht9 : 9 ≤ tail.length
  · -- snapshot interleaved
    have happ : creditAppend ⟨acc, a, tail⟩ id amt now =
        [AccountEvent.snapshot { acc with version := acc.version + 1 },
         AccountEvent.credited id amt now (acc.version + 1 + 1)] := by
      simp [creditAppend, ht9, Nat.add_assoc]
    have htrans : transactAppend store
        [AccountEvent.snapshot { acc with version := acc.version + 1 },
         AccountEvent.credited id amt now (acc.version + 1 + 1)] =
        some (store ++
          [AccountEvent.snapshot { acc with version := acc.version + 1 },
           AccountEvent.credited id amt now (acc.version + 1 + 1)]) := by
      refine transactAppend_of_fresh _ _ ?_
      intro en hen x hx
      have hxv : x.version ≤ store.length := hver x hx
      simp only [List.mem_cons, List.not_mem_nil, or_false] at hen
      rcases hen with h | h <;> subst h <;> simp <;> omega
    have hget₂ : get (store ++
        [AccountEvent.snapshot { acc with version := acc.version + 1 },
         AccountEvent.credited id amt now (acc.version + 1 + 1)]) =
        some ⟨[AccountEvent.credited id amt now (acc.version + 1 + 1)].foldl foldEvent
            { acc with version := acc.version + 1 },
          { acc with version := acc.version + 1 },
          [AccountEvent.credited id amt now (acc.version + 1 + 1)]⟩ :=
      get_decomp store _ _ (by simp [AccountEvent.isSnapshot]) (by simp)
    refine ⟨⟨acc, a, tail⟩,
      ⟨{ acc with availableTokens := acc.availableTokens + amt,
                  version := acc.version + 1 + 1 },
        { acc with version := acc.version + 1 },
        [AccountEvent.credited id amt now (acc.version + 1 + 1)]⟩,
      hget, ?_, ?_, ?_⟩
    · rw [happ]
      simp only [credit, hget, ht9, if_true, creditAccount, htrans, hget₂,
        List.foldl, foldEvent]
    · rw [happ]
      refine ⟨store, { acc with version := acc.version + 1 },
        [AccountEvent.credited id amt now (acc.version + 1 + 1)], rfl,
        by simp [AccountEvent.isMutating], by simp, ?_, ?_, ?_⟩
      · intro e he
        have hl : (store ++
            [AccountEvent.snapshot { acc with version := acc.version + 1 },
             AccountEvent.credited id amt now (acc.version + 1 + 1)]).length =
            store.length + 2 := by simp
        rw [hl]
        rcases List.mem_append.mp he with h | h
        · exact le_trans (hver e h) (by omega)
        · simp only [List.mem_cons, List.not_mem_nil, or_false] at h
          rcases h with h | h <;> subst h <;> simp <;> omega
      · simp only [List.foldl, foldEvent, List.length_append]
        simp only [List.length_cons, List.length_nil]
        omega
      · simp [List.foldl, foldEvent, hfbal]
    · simp [hfbal]
  · -- plain credit
    have happ : creditAppend ⟨acc, a, tail⟩ id amt now =
        [AccountEvent.credited id amt now (acc.version + 1)] := by
      simp [creditAppend, ht9]
    have htrans : transactAppend store
        [AccountEvent.credited id amt now (acc.version + 1)] =
        some (store ++ [AccountEvent.credited id amt now (acc.version + 1)]) := by
      refine transactAppend_of_fresh _ _ ?_
      intro en hen x hx
      have hxv : x.version ≤ store.length := hver x hx
      simp only [List.mem_singleton] at hen
      subst hen
      simp
      omega
    have hsplit : store ++ [AccountEvent.credited id amt now (acc.version + 1)] =
        pre ++ AccountEvent.snapshot a ::
          (tail ++ [AccountEvent.credited id amt now (acc.version + 1)]) := by
      rw [hstore]; simp
    have hget₂ : get (store ++ [AccountEvent.credited id amt now (acc.version + 1)]) =
        some ⟨(tail ++ [AccountEvent.credited id amt now (acc.version + 1)]).foldl
            foldEvent a, a,
          tail ++ [AccountEvent.credited id amt now (acc.version + 1)]⟩ := by
      rw [hsplit]
      refine get_decomp pre a _ ?_ ?_
      · intro e he
        rcases List.mem_append.mp he with h | h
        · exact hns e h
        · simp only [List.mem_singleton] at h; subst h; rfl
      · simp only [List.length_append, List.length_singleton]; omega
    refine ⟨⟨acc, a, tail⟩,
      ⟨(tail ++ [AccountEvent.credited id amt now (acc.version + 1)]).foldl
          foldEvent a, a,
        tail ++ [AccountEvent.credited id amt now (acc.version + 1)]⟩,
      hget, ?_, ?_, ?_⟩
    · rw [happ]
      simp only [credit, hget, ht9, if_false, creditAccount, htrans, hget₂]
    · rw [happ]
      refine ⟨pre, a, tail ++ [AccountEvent.credited id amt now (acc.version + 1)],
        hsplit, ?_, by simp only [List.length_append, List.length_singleton]; omega,
        ?_, ?_, ?_⟩
      · intro e he
        rcases List.mem_append.mp he with h | h
        · exact hmut e h
        · simp only [List.mem_singleton] at h; subst h; rfl
      · intro e he
        have hl : (store ++ [AccountEvent.credited id amt now (acc.version + 1)]).length =
            store.length + 1 := by simp
        rw [hl]
        rcases List.mem_append.mp he with h | h
        · exact le_trans (hver e h) (by omega)
        · simp only [List.mem_singleton] at h; subst h
          simp only [version_credited]
          omega
      · simp only [List.foldl_append, List.foldl, foldEvent, ← hacc]
        simp only [List.length_append, List.length_cons, List.length_nil]
        omega
      · simp only [List.foldl_append, List.foldl, foldEvent, ← hacc]
        simp [hfbal]
    · simp only [List.foldl_append, List.foldl, foldEvent, ← hacc]
      simp [hfbal]

/-- A debit whose amount exceeds the reconstructed balance throws the
insufficient-tokens error before building any write: the store is
returned unchanged. -/
theorem debit_insufficient (store : List AccountEvent) (id : String)
    (amt : Int) (now : String) (det : AccountDetails)
    (hget : get store = some det)
    (h : det.account.availableTokens < amt) :
    debit store id amt now = (.insufficientError, store) := by
  simp only [debit, hget, h, if_true]

/-- A successful `debit` under the invariant: sufficiency holds, the
operation returns the updated reconstruction and appends exactly
`debitAppend`, re-establishing the invariant with the balance decreased
by the debited amount. -/
theorem debit_ok (store : List AccountEvent) (bal : Int) (id : String)
    (amt : Int) (now : String) (hInv : Inv store bal) (hsuf : ¬bal < amt) :
    ∃ det det₂,
      get store = some det ∧
      debit store id amt now = (.ok det₂, store ++ debitAppend det id amt now) ∧
      Inv (store ++ debitAppend det id amt now) (bal - amt) ∧
      det₂.account.availableTokens = bal - amt := by
  obtain ⟨pre, a, tail, hstore, hmut, hlen, hver, hfver, hfbal⟩ := hInv
  have hns : ∀ e ∈ tail, e.isSnapshot = false :=
    fun e he => isSnapshot_eq_false_of_isMutating e (hmut e he)
  set acc := tail.foldl foldEvent a with hacc
  have hget : get store = some ⟨acc, a, tail⟩ := by
    rw [hstore, get_decomp pre a tail hns hlen, ← hacc]
  have hcond : ¬acc.availableTokens < amt := by rw [hfbal]; exact hsuf
  by_cases ht9 : 9 ≤ tail.length
  · -- snapshot interleaved
    have happ : debitAppend ⟨acc, a, tail⟩ id amt now =
        [AccountEvent.snapshot { acc with version := acc.version + 1 },
         AccountEvent.debited id amt now (acc.version + 1 + 1)] := by
      simp [debitAppend, ht9, Nat.add_assoc]
    have htrans : transactAppend store
        [AccountEvent.snapshot { acc with version := acc.version + 1 },
         AccountEvent.debited id amt now (acc.version + 1 + 1)] =
        some (store ++
          [AccountEvent.snapshot { acc with version := acc.version + 1 },
           AccountEvent.debited id amt now (acc.version + 1 + 1)]) := by
      refine transactAppend_of_fresh _ _ ?_
      intro en hen x hx
      have hxv : x.version ≤ store.length := hver x hx
      simp only [List.mem_cons, List.not_mem_nil, or_false] at hen
      rcases hen with h | h <;> subst h <;> simp <;> omega
    have hget₂ : get (store ++
        [AccountEvent.snapshot { acc with version := acc.version + 1 },
         AccountEvent.debited id amt now (acc.version + 1 + 1)]) =
        some ⟨[AccountEvent.debited id amt now (acc.version + 1 + 1)].foldl foldEvent
            { acc with version := acc.version + 1 },
          { acc with version := acc.version + 1 },
          [AccountEvent.debited id amt now (acc.version + 1 + 1)]⟩ :=
      get_decomp store _ _ (by simp [AccountEvent.isSnapshot]) (by simp)
    refine ⟨⟨acc, a, tail⟩,
      ⟨{ acc with availableTokens := acc.availableTokens - amt,
                  version := acc.version + 1 + 1 },
        { acc with version := acc.version + 1 },
        [AccountEvent.debited id amt now (acc.version + 1 + 1)]⟩,
      hget, ?_, ?_, ?_⟩
    · rw [happ]
      simp only [debit, hget, hcond, if_false, ht9, if_true, debitAccount, htrans,
        hget₂, List.foldl, foldEvent]
    · rw [happ]
      refine ⟨store, { acc with version := acc.version + 1 },
        [AccountEvent.debited id amt now (acc.version + 1 + 1)], rfl,
        by simp [AccountEvent.isMutating], by simp, ?_, ?_, ?_⟩
      · intro e he
        have hl : (store ++
            [AccountEvent.snapshot { acc with version := acc.version + 1 },
             AccountEvent.debited id amt now (acc.version + 1 + 1)]).length =
            store.length + 2 := by simp
        rw [hl]
        rcases List.mem_append.mp he with h | h
        · exact le_trans (hver e h) (by omega)
        · simp only [List.mem_cons, List.not_mem_nil, or_false] at h
          rcases h with h | h <;> subst h <;> simp <;> omega
      · simp only [List.foldl, foldEvent, List.length_append]
        simp only [List.length_cons, List.length_nil]
        omega
      · simp [List.foldl, foldEvent, hfbal]
    · simp [hfbal]
  · -- plain debit
    have happ : debitAppend ⟨acc, a, tail⟩ id amt now =
        [AccountEvent.debited id amt now (acc.version + 1)] := by
      simp [debitAppend, ht9]
    have htrans : transactAppend store
        [AccountEvent.debited id amt now (acc.version + 1)] =
        some (store ++ [AccountEvent.debited id amt now (acc.version + 1)]) := by
      refine transactAppend_of_fresh _ _ ?_
      intro en hen x hx
      have hxv : x.version ≤ store.length := hver x hx
      simp only [List.mem_singleton] at hen
      subst hen
      simp
      omega
    have hsplit : store ++ [AccountEvent.debited id amt now (acc.version + 1)] =
        pre ++ AccountEvent.snapshot a ::
          (tail ++ [AccountEvent.debited id amt now (acc.version + 1)]) := by
      rw [hstore]; simp
    have hget₂ : get (store ++ [AccountEvent.debited id amt now (acc.version + 1)]) =
        some ⟨(tail ++ [AccountEvent.debited id amt now (acc.version + 1)]).foldl
            foldEvent a, a,
          tail ++ [AccountEvent.debited id amt now (acc.version + 1)]⟩ := by
      rw [hsplit]
      refine get_decomp pre a _ ?_ ?_
      · intro e he
        rcases List.mem_append.mp he with h | h
        · exact hns e h
        · simp only [List.mem_singleton] at h; subst h; rfl
      · simp only [List.length_append, List.length_singleton]; omega
    refine ⟨⟨acc, a, tail⟩,
      ⟨(tail ++ [AccountEvent.debited id amt now (acc.version + 1)]).foldl
          foldEvent a, a,
        tail ++ [AccountEvent.debited id amt now (acc.version + 1)]⟩,
      hget, ?_, ?_, ?_⟩
    · rw [happ]
      simp only [debit, hget, hcond, if_false, ht9, debitAccount, htrans, hget₂]
    · rw [happ]
      refine ⟨pre, a, tail ++ [AccountEvent.debited id amt now (acc.version + 1)],
        hsplit, ?_, by simp only [List.length_append, List.length_singleton]; omega,
        ?_, ?_, ?_⟩
      · intro e he
        rcases List.mem_append.mp he with h | h
        · exact hmut e h
        · simp only [List.mem_singleton] at h; subst h; rfl
      · intro e he
        have hl : (store ++ [AccountEvent.debited id amt now (acc.version + 1)]).length =
            store.length + 1 := by simp
        rw [hl]
        rcases List.mem_append.mp he with h | h
        · exact le_trans (hver e h) (by omega)
        · simp only [List.mem_singleton] at h; subst h
          simp only [version_debited]
          omega
      · simp only [List.foldl_append, List.foldl, foldEvent, ← hacc]
        simp only [List.length_append, List.length_cons, List.length_nil]
        omega
      · simp only [List.foldl_append, List.foldl, foldEvent, ← hacc]
        simp [hfbal]
    · simp only [List.foldl_append, List.foldl, foldEvent, ← hacc]
      simp [hfbal]

/-- Under the invariant, `get` succeeds and reports the invariant's
balance, the store length as version, and at most 9 events since the
snapshot. -/
theorem Inv_get (store : List AccountEvent) (bal : Int) (hInv : Inv store bal) :
    ∃ det, get store = some det ∧ det.account.availableTokens = bal ∧
      det.account.version = store.length ∧ det.itemsSinceSnapshot.length ≤ 9 := by
  obtain ⟨pre, a, tail, hstore, hmut, hlen, hver, hfver, hfbal⟩ := hInv
  have hns : ∀ e ∈ tail, e.isSnapshot = false :=
    fun e he => isSnapshot_eq_false_of_isMutating e (hmut e he)
  refine ⟨⟨tail.foldl foldEvent a, a, tail⟩, ?_, hfbal, hfver, hlen⟩
  rw [hstore]
  exact get_decomp pre a tail hns hlen

/-- The invariant is preserved by every successful operation sequence,
with the balance shifted by credits minus debits. -/
theorem runOps_Inv (id now : String) (ops : List Op) :
    ∀ store bal store₂, Inv store bal → runOps store id now ops = some store₂ →
      Inv store₂ (bal + sumCredits ops - sumDebits ops) := by
  induction ops with
  | nil =>
    intro store bal store₂ hInv h
    simp only [runOps, Option.some.injEq] at h
    subst h
    simpa [sumCredits, sumDebits] using hInv
  | cons op rest ih =>
    intro store bal store₂ hInv h
    cases op with
    | credit a =>
      obtain ⟨det, det₂, hget, hcredit, hInv₂, hbal₂⟩ := credit_ok store bal id a now hInv
      simp only [runOps, runOp, hcredit] at h
      have h2 := ih _ _ _ hInv₂ h
      have heq : bal + a + sumCredits rest - sumDebits rest
          = bal + sumCredits (Op.credit a :: rest) - sumDebits (Op.credit a :: rest) := by
        simp only [sumCredits, sumDebits]
        ring
      rwa [heq] at h2
    | debit a =>
      by_cases hlt : bal < a
      · obtain ⟨det, hget, hbal, _, _⟩ := Inv_get store bal hInv
        have hd : debit store id a now = (.insufficientError, store) :=
          debit_insufficient store id a now det hget (by rw [hbal]; exact hlt)
        simp [runOps, runOp, hd] at h
      · obtain ⟨det, det₂, hget, hdebit, hInv₂, hbal₂⟩ := debit_ok store bal id a now hInv hlt
        simp only [runOps, runOp, hdebit] at h
        have h2 := ih _ _ _ hInv₂ h
        have heq : bal - a + sumCredits rest - sumDebits rest
            = bal + sumCredits (Op.debit a :: rest) - sumDebits (Op.debit a :: rest) := by
          simp only [sumCredits, sumDebits]
          ring
        rwa [heq] at h2

/-- Every reachable store satisfies the invariant at some balance. -/
theorem Reachable_Inv (store : List AccountEvent) (hre : Reachable store) :
    ∃ bal, Inv store bal := by
  obtain ⟨id, auth0Id, email, now, ops, h⟩ := hre
  exact ⟨_, runOps_Inv id now ops _ 1 store
    (Inv_createdStore id auth0Id email now) h⟩

/-- C1: for every sequence of successful credit/debit operations applied
after `create`, the reconstructed `availableTokens` equals
`1 + sum(credits) - sum(debits)` — 1 being the fixed creation grant. -/
theorem spec_c1_balance_after_ops (id auth0Id email now : String)
    (ops : List Op) (store₂ : List AccountEvent)
    (h : runOps (createdStore id auth0Id email now) id now ops = some store₂) :
    ∃ det, get store₂ = some det ∧
      det.account.availableTokens = 1 + sumCredits ops - sumDebits ops := by
  have hInv := runOps_Inv id now ops _ 1 store₂
    (Inv_createdStore id auth0Id email now) h
  obtain ⟨det, hget, hbal, _, _⟩ := Inv_get _ _ hInv
  exact ⟨det, hget, hbal⟩

/-- Witness for C1: create, credit 5, debit 3 leaves balance 1 + 5 - 3. -/
theorem spec_c1_balance_after_ops_witness :
    ∃ det,
      get [AccountEvent.created
            { auth0Id := "a0", availableTokens := 1, email := "e@x", id := "id1",
              timestamp := "t", version := 1 },
           AccountEvent.snapshot
            { auth0Id := "a0", availableTokens := 1, email := "e@x", id := "id1",
              timestamp := "t", version := 2 },
           AccountEvent.credited "id1" 5 "t" 3,
           AccountEvent.debited "id1" 3 "t" 4] = some det ∧
      det.account.availableTokens =
        1 + sumCredits [Op.credit 5, Op.debit 3] - sumDebits [Op.credit 5, Op.debit 3] :=
  spec_c1_balance_after_ops "id1" "a0" "e@x" "t" [Op.credit 5, Op.debit 3] _ (by decide)

/-- C2: a debit whose amount exceeds the reconstructed balance fails with
the insufficient-balance error and attempts no write — the event store is
returned exactly as it was. -/
theorem spec_c2_insufficient_debit_writes_nothing (store : List AccountEvent)
    (id : String) (amt : Int) (now : String) (det : AccountDetails)
    (hget : get store = some det)
    (h : det.account.availableTokens < amt) :
    debit store id amt now = (.insufficientError, store) :=
  debit_insufficient store id amt now det hget h

/-- Witness for C2: debiting 5 from a freshly created account (balance 1)
fails and leaves the two creation events untouched. -/
theorem spec_c2_insufficient_debit_writes_nothing_witness :
    debit [AccountEvent.created
            { auth0Id := "a0", availableTokens := 1, email := "e@x", id := "id1",
              timestamp := "t", version := 1 },
           AccountEvent.snapshot
            { auth0Id := "a0", availableTokens := 1, email := "e@x", id := "id1",
              timestamp := "t", version := 2 }] "id1" 5 "t2" =
      (.insufficientError,
        [AccountEvent.created
          { auth0Id := "a0", availableTokens := 1, email := "e@x", id := "id1",
            timestamp := "t", version := 1 },
         AccountEvent.snapshot
          { auth0Id := "a0", availableTokens := 1, email := "e@x", id := "id1",
            timestamp := "t", version := 2 }]) :=
  spec_c2_insufficient_debit_writes_nothing _ "id1" 5 "t2"
    ⟨{ auth0Id := "a0", availableTokens := 1, email := "e@x", id := "id1",
       timestamp := "t", version := 2 },
     { auth0Id := "a0", availableTokens := 1, email := "e@x", id := "id1",
       timestamp := "t", version := 2 }, []⟩ (by decide) (by decide)

/-- C4: in every reachable store, reconstruction finds at most 9 events
after the latest snapshot; and when a credit or debit fires while 9 (or
more) events have accumulated since the last snapshot, the same
conditional append contains exactly one `SNAPSHOT` event carrying the
pre-operation reconstructed state at the next available version, followed
by the mutating event. -/
theorem spec_c4_snapshot_policy (store : List AccountEvent) (hre : Reachable store) :
    ∃ det, get store = some det ∧
      det.itemsSinceSnapshot.length ≤ 9 ∧
      ∀ id amt now, 9 ≤ det.itemsSinceSnapshot.length →
        (credit store id amt now).2 = store ++
          [AccountEvent.snapshot { det.account with version := det.account.version + 1 },
           AccountEvent.credited id amt now (det.account.version + 2)] ∧
        (¬det.account.availableTokens < amt →
          (debit store id amt now).2 = store ++
            [AccountEvent.snapshot { det.account with version := det.account.version + 1 },
             AccountEvent.debited id amt now (det.account.version + 2)]) := by
  obtain ⟨bal, hInv⟩ := Reachable_Inv store hre
  obtain ⟨det, hget, hbal, hver, hlen⟩ := Inv_get store bal hInv
  refine ⟨det, hget, hlen, ?_⟩
  intro id amt now h9
  constructor
  · obtain ⟨det', det₂, hget', hcredit, _, _⟩ := credit_ok store bal id amt now hInv
    rw [hget] at hget'
    obtain rfl := Option.some.inj hget'
    rw [hcredit]
    simp [creditAppend, h9]
  · intro hsuf
    have hsuf₂ : ¬bal < amt := by rw [← hbal]; exact hsuf
    obtain ⟨det', det₂, hget', hdebit, _, _⟩ := debit_ok store bal id amt now hInv hsuf₂
    rw [hget] at hget'
    obtain rfl := Option.some.inj hget'
    rw [hdebit]
    simp [debitAppend, h9]

/-- Witness for C4: after a create and nine credits of 1, reconstruction
reports exactly 9 events since the snapshot, and the properties above
hold for that store. -/
theorem spec_c4_snapshot_policy_witness :
    ∃ det,
      get ([AccountEvent.created
            { auth0Id := "a0", availableTokens := 1, email := "e@x", id := "id1",
              timestamp := "t", version := 1 },
           AccountEvent.snapshot
            { auth0Id := "a0", availableTokens := 1, email := "e@x", id := "id1",
              timestamp := "t", version := 2 }] ++
          (List.range 9).map fun k => AccountEvent.credited "id1" 1 "t" (k + 3)) =
        some det ∧
      det.itemsSinceSnapshot.length ≤ 9 ∧
      ∀ id amt now, 9 ≤ det.itemsSinceSnapshot.length →
        (credit ([AccountEvent.created
            { auth0Id := "a0", availableTokens := 1, email := "e@x", id := "id1",
              timestamp := "t", version := 1 },
           AccountEvent.snapshot
            { auth0Id := "a0", availableTokens := 1, email := "e@x", id := "id1",
              timestamp := "t", version := 2 }] ++
          (List.range 9).map fun k => AccountEvent.credited "id1" 1 "t" (k + 3))
            id amt now).2 =
          ([AccountEvent.created
            { auth0Id := "a0", availableTokens := 1, email := "e@x", id := "id1",
              timestamp := "t", version := 1 },
           AccountEvent.snapshot
            { auth0Id := "a0", availableTokens := 1, email := "e@x", id := "id1",
              timestamp := "t", version := 2 }] ++
          (List.range 9).map fun k => AccountEvent.credited "id1" 1 "t" (k + 3)) ++
          [AccountEvent.snapshot { det.account with version := det.account.version + 1 },
           AccountEvent.credited id amt now (det.account.version + 2)] ∧
        (¬det.account.availableTokens < amt →
          (debit ([AccountEvent.created
              { auth0Id := "a0", availableTokens := 1, email := "e@x", id := "id1",
                timestamp := "t", version := 1 },
             AccountEvent.snapshot
              { auth0Id := "a0", availableTokens := 1, email := "e@x", id := "id1",
                timestamp := "t", version := 2 }] ++
            (List.range 9).map fun k => AccountEvent.credited "id1" 1 "t" (k + 3))
              id amt now).2 =
            ([AccountEvent.created
              { auth0Id := "a0", availableTokens := 1, email := "e@x", id := "id1",
                timestamp := "t", version := 1 },
             AccountEvent.snapshot
              { auth0Id := "a0", availableTokens := 1, email := "e@x", id := "id1",
                timestamp := "t", version := 2 }] ++
            (List.range 9).map fun k => AccountEvent.credited "id1" 1 "t" (k + 3)) ++
            [AccountEvent.snapshot { det.account with version := det.account.version + 1 },
             AccountEvent.debited id amt now (det.account.version + 2)]) :=
  spec_c4_snapshot_policy _
    ⟨"id1", "a0", "e@x", "t", List.replicate 9 (Op.credit 1), by decide⟩

/-! ### The refinement of snapshot-based reconstruction (C3) -/

/-- The code's fold only ever moves `availableTokens` by the signed net
amount of the folded events. -/
theorem foldl_foldEvent_tokens (tail : List AccountEvent) :
    ∀ b : Account, (tail.foldl foldEvent b).availableTokens =
      b.availableTokens + netAmount tail := by
  induction tail with
  | nil => intro b; simp [netAmount]
  | cons e rest ih =>
    intro b
    cases e <;> simp only [List.foldl, foldEvent, netAmount, ih] <;> ring

/-- The specification-side replay over a created-event-free list starting
from a known state also moves the balance by the signed net amount. -/
theorem foldl_replayStep_tokens (tail : List AccountEvent) :
    ∀ p : Account, (∀ e ∈ tail, e.isCreated = false) →
      ∃ q, tail.foldl replayStep (some p) = some q ∧
        q.availableTokens = p.availableTokens + netAmount tail := by
  induction tail with
  | nil => intro p _; exact ⟨p, rfl, by simp [netAmount]⟩
  | cons e rest ih =>
    intro p h
    have hrest : ∀ x ∈ rest, x.isCreated = false := fun x hx => h x (by simp [hx])
    cases e with
    | created a =>
      have hc := h (AccountEvent.created a) (by simp)
      simp [AccountEvent.isCreated] at hc
    | snapshot a =>
      obtain ⟨q, hq, hqt⟩ := ih p hrest
      exact ⟨q, hq, by simpa [netAmount] using hqt⟩
    | credited id amount ts v =>
      obtain ⟨q, hq, hqt⟩ := ih
        { p with availableTokens := p.availableTokens + amount, version := v } hrest
      refine ⟨q, hq, ?_⟩
      have hred : ({ p with availableTokens := p.availableTokens + amount, version := v } : Account).availableTokens = p.availableTokens + amount := rfl
      rw [hred] at hqt
      simp only [netAmount]
      omega
    | debited id amount ts v =>
      obtain ⟨q, hq, hqt⟩ := ih
        { p with availableTokens := p.availableTokens - amount, version := v } hrest
      refine ⟨q, hq, ?_⟩
      have hred : ({ p with availableTokens := p.availableTokens - amount, version := v } : Account).availableTokens = p.availableTokens - amount := rfl
      rw [hred] at hqt
      simp only [netAmount]
      omega

/-- C3: for a valid history — most recent snapshot within the 10-event
probe window (at most 9 newer events, none of them snapshots or created
events) whose carried balance agrees with the spec-side replay of its
prefix — `get`'s snapshot-based reconstruction yields the same balance as
replaying the entire raw event history from version 1, whatever the
snapshot cadence in the prefix. -/
theorem spec_c3_snapshot_replay_refinement (pre : List AccountEvent)
    (a : Account) (tail : List AccountEvent) (p : Account)
    (hns : ∀ e ∈ tail, e.isSnapshot = false)
    (hnc : ∀ e ∈ tail, e.isCreated = false)
    (hlen : tail.length ≤ 9)
    (hrepre : replayAccount pre = some p)
    (hconsistent : p.availableTokens = a.availableTokens) :
    ∃ det q,
      get (pre ++ AccountEvent.snapshot a :: tail) = some det ∧
      replayAccount (pre ++ AccountEvent.snapshot a :: tail) = some q ∧
      q.availableTokens = det.account.availableTokens := by
  have hreplay : replayAccount (pre ++ AccountEvent.snapshot a :: tail) =
      tail.foldl replayStep (some p) := by
    unfold replayAccount
    rw [List.foldl_append]
    have hpre : pre.foldl replayStep none = some p := hrepre
    rw [hpre]
    rfl
  obtain ⟨q, hq, hqt⟩ := foldl_replayStep_tokens tail p hnc
  refine ⟨⟨tail.foldl foldEvent a, a, tail⟩, q,
    get_decomp pre a tail hns hlen, by rw [hreplay]; exact hq, ?_⟩
  rw [hqt, hconsistent, foldl_foldEvent_tokens]

/-- Witness for C3: a created account with one later credit — snapshot
fold and raw replay both give balance 6. -/
theorem spec_c3_snapshot_replay_refinement_witness :
    ∃ det q,
      get ([AccountEvent.created
            { auth0Id := "a0", availableTokens := 1, email := "e@x", id := "id1",
              timestamp := "t", version := 1 }] ++
          AccountEvent.snapshot
            { auth0Id := "a0", availableTokens := 1, email := "e@x", id := "id1",
              timestamp := "t", version := 2 } ::
          [AccountEvent.credited "id1" 5 "t" 3]) = some det ∧
      replayAccount ([AccountEvent.created
            { auth0Id := "a0", availableTokens := 1, email := "e@x", id := "id1",
              timestamp := "t", version := 1 }] ++
          AccountEvent.snapshot
            { auth0Id := "a0", availableTokens := 1, email := "e@x", id := "id1",
              timestamp := "t", version := 2 } ::
          [AccountEvent.credited "id1" 5 "t" 3]) = some q ∧
      q.availableTokens = det.account.availableTokens :=
  spec_c3_snapshot_replay_refinement _ _ _
    { auth0Id := "a0", availableTokens := 1, email := "e@x", id := "id1",
      timestamp := "t", version := 1 }
    (by decide) (by decide) (by decide) (by decide) (by decide)

/-! ### NotFound characterization (C6, C10) -/

theorem findSnapshotIdx_eq_none_iff (l : List AccountEvent) :
    findSnapshotIdx l = none ↔ ∀ e ∈ l, e.isSnapshot = false := by
  induction l with
  | nil => simp [findSnapshotIdx]
  | cons x xs ih =>
    by_cases hx : x.isSnapshot = true
    · simp [findSnapshotIdx, hx]
    · simp only [Bool.not_eq_true] at hx
      simp [findSnapshotIdx, hx, ih]

theorem findSnapshotIdx_some (l : List AccountEvent) :
    ∀ idx, findSnapshotIdx l = some idx →
      ∃ e, l[idx]? = some e ∧ e.isSnapshot = true := by
  induction l with
  | nil => intro idx h; simp [findSnapshotIdx] at h
  | cons x xs ih =>
    intro idx h
    by_cases hx : x.isSnapshot = true
    · simp only [findSnapshotIdx, hx, if_true, Option.some.injEq] at h
      subst h
      exact ⟨x, by simp, hx⟩
    · simp only [Bool.not_eq_true] at hx
      simp only [findSnapshotIdx, hx, Bool.false_eq_true, if_false,
        Option.map_eq_some'] at h
      obtain ⟨j, hj, hidx⟩ := h
      obtain ⟨e, he, hsnap⟩ := ih j hj
      subst hidx
      exact ⟨e, by simpa using he, hsnap⟩

/-- `get` returns null exactly when the page of (up to) 10 most recent
events holds no snapshot. -/
theorem get_eq_none_iff (store : List AccountEvent) :
    get store = none ↔ ∀ e ∈ getAccountEvents store, e.isSnapshot = false := by
  constructor
  · intro hnone
    by_contra hcon
    push_neg at hcon
    obtain ⟨e, he, hsnap⟩ := hcon
    have hf : findSnapshotIdx (getAccountEvents store) ≠ none := by
      rw [Ne, findSnapshotIdx_eq_none_iff]
      intro hall
      exact hsnap (hall e he)
    obtain ⟨idx, hidx⟩ := Option.ne_none_iff_exists'.mp hf
    obtain ⟨e₂, he₂, _⟩ := findSnapshotIdx_some _ idx hidx
    simp [get, hidx, he₂] at hnone
  · intro hall
    have hf : findSnapshotIdx (getAccountEvents store) = none :=
      (findSnapshotIdx_eq_none_iff _).mpr hall
    simp [get, hf]

/-- C10: whenever the snapshot search over the page misses (JavaScript
index -1, so the indexed element is absent), `get` terminates normally
returning null instead of faulting — in particular for any id whose page
holds no snapshot. -/
theorem spec_c10_get_returns_null_safely (store : List AccountEvent)
    (h : ∀ e ∈ getAccountEvents store, e.isSnapshot = false) :
    get store = none :=
  (get_eq_none_iff store).mpr h

/-- Witness for C10: a history holding a single mutating event (no
snapshot anywhere in the page) reconstructs to null. -/
theorem spec_c10_get_returns_null_safely_witness :
    get [AccountEvent.credited "id1" 5 "t" 1] = none :=
  spec_c10_get_returns_null_safely _ (by decide)

/-- C6 counterexample: for an unknown accountId (no events), the mutating
operations `credit` and `debit` surface NotFound as a returned null — not
as a hard failure — while the cited `getAccount` read resolver hard-fails
(TypeError while destructuring the null reconstruction).  This refutes
the claimed null-for-reads / hard-failure-for-mutations split. -/
theorem spec_c6_counterexample :
    credit [] "missing" 5 "t" = (OpResult.nullResult, []) ∧
    debit [] "missing" 5 "t" = (OpResult.nullResult, []) ∧
    getAccount [] = GetAccountOutcome.typeError :=
  ⟨rfl, rfl, rfl⟩

/-- C6 (amended): `get` returns NotFound exactly when no snapshot occurs
among the 10 most recent events (so for every unknown id); the mutating
operations surface it as a returned null with the store untouched, and
the cited `getAccount` resolver surfaces it as a hard failure. -/
theorem spec_c6_notfound_surfacing (store : List AccountEvent) (id : String)
    (amt : Int) (now : String) :
    (get store = none ↔ ∀ e ∈ getAccountEvents store, e.isSnapshot = false) ∧
    (get store = none →
      credit store id amt now = (OpResult.nullResult, store) ∧
      debit store id amt now = (OpResult.nullResult, store) ∧
      getAccount store = GetAccountOutcome.typeError) := by
  refine ⟨get_eq_none_iff store, fun hnone => ⟨?_, ?_, ?_⟩⟩
  · simp [credit, hnone]
  · simp [debit, hnone]
  · simp [getAccount, hnone]

/-- Witness for C6: the amended behavior at the empty history. -/
theorem spec_c6_notfound_surfacing_witness :
    (get [] = none ↔ ∀ e ∈ getAccountEvents [], e.isSnapshot = false) ∧
    (credit [] "m" 7 "t" = (OpResult.nullResult, []) ∧
      debit [] "m" 7 "t" = (OpResult.nullResult, []) ∧
      getAccount [] = GetAccountOutcome.typeError) :=
  ⟨(spec_c6_notfound_surfacing [] "m" 7 "t").1,
   (spec_c6_notfound_surfacing [] "m" 7 "t").2 (by decide)⟩

/-! ### Create (C5) -/

/-- C5: `create` on a fresh account partition writes exactly the
version-1 `CREATED` event with the fixed initial balance 1 and the
version-2 `SNAPSHOT` event mirroring it, and returns the reconstructed
account, which has balance 1 and version 2; and the write is conditioned
on non-existence of the identifier — a partition already holding its
version-1 event makes the whole transaction fail with nothing written. -/
theorem spec_c5_create_shape (id auth0Id email now : String) :
    create [] id auth0Id email now =
      (OpResult.ok
        ⟨{ auth0Id := auth0Id, availableTokens := 1, email := email, id := id,
           timestamp := now, version := 2 },
         { auth0Id := auth0Id, availableTokens := 1, email := email, id := id,
           timestamp := now, version := 2 }, []⟩,
       [AccountEvent.created
          { auth0Id := auth0Id, availableTokens := 1, email := email, id := id,
            timestamp := now, version := 1 },
        AccountEvent.snapshot
          { auth0Id := auth0Id, availableTokens := 1, email := email, id := id,
            timestamp := now, version := 2 }]) ∧
    ∀ store : List AccountEvent, (∃ e ∈ store, e.version = 1) →
      create store id auth0Id email now = (OpResult.conflictError, store) := by
  constructor
  · rfl
  · intro store h
    obtain ⟨e, he, hv⟩ := h
    have hp : ¬((∀ x ∈ store, ¬x.version = 1) ∧ ∀ x ∈ store, ¬x.version = 2) :=
      fun hc => hc.1 e he hv
    simp [create, createAccount, transactAppend, hp]

/-- Witness for C5: concrete create on a fresh partition, and the
conditioned failure when the identifier already has its version-1 event. -/
theorem spec_c5_create_shape_witness :
    create [] "id1" "a0" "e@x" "t" =
      (OpResult.ok
        ⟨{ auth0Id := "a0", availableTokens := 1, email := "e@x", id := "id1",
           timestamp := "t", version := 2 },
         { auth0Id := "a0", availableTokens := 1, email := "e@x", id := "id1",
           timestamp := "t", version := 2 }, []⟩,
       [AccountEvent.created
          { auth0Id := "a0", availableTokens := 1, email := "e@x", id := "id1",
            timestamp := "t", version := 1 },
        AccountEvent.snapshot
          { auth0Id := "a0", availableTokens := 1, email := "e@x", id := "id1",
            timestamp := "t", version := 2 }]) ∧
    create [AccountEvent.created
        { auth0Id := "a0", availableTokens := 1, email := "e@x", id := "id1",
          timestamp := "t", version := 1 },
      AccountEvent.snapshot
        { auth0Id := "a0", availableTokens := 1, email := "e@x", id := "id1",
          timestamp := "t", version := 2 }] "id1" "a1" "f@x" "t2" =
      (OpResult.conflictError,
       [AccountEvent.created
          { auth0Id := "a0", availableTokens := 1, email := "e@x", id := "id1",
            timestamp := "t", version := 1 },
        AccountEvent.snapshot
          { auth0Id := "a0", availableTokens := 1, email := "e@x", id := "id1",
            timestamp := "t", version := 2 }]) :=
  ⟨(spec_c5_create_shape "id1" "a0" "e@x" "t").1,
   (spec_c5_create_shape "id1" "a1" "f@x" "t2").2 _ (by decide)⟩

/-! ### Amount pass-through on credit/debit (C9) -/

theorem transactAppend_eq_some (store l s₂ : List AccountEvent)
    (h : transactAppend store l = some s₂) : s₂ = store ++ l := by
  unfold transactAppend at h
  split at h
  · exact (Option.some.inj h).symm
  · exact absurd h (by simp)

/-- Every event a `credit` call appends that is a mutating event carries
exactly the requested amount (`credit` performs no validation of it). -/
theorem credit_appended_amount (store : List AccountEvent) (id : String)
    (amt : Int) (now : String) :
    ∀ e ∈ (credit store id amt now).2.drop store.length,
      e.isMutating = true → e.amount = amt := by
  cases hg : get store with
  | none => simp [credit, hg, List.drop_length]
  | some det =>
    by_cases h9 : 9 ≤ det.itemsSinceSnapshot.length
    · cases hca : creditAccount store
        (AccountEvent.credited id amt now (det.account.version + 1 + 1))
        (some (AccountEvent.snapshot
          { det.account with version := det.account.version + 1 })) with
      | none => simp [credit, hg, h9, hca, List.drop_length]
      | some s₂ =>
        simp only [creditAccount] at hca
        have hs₂ := transactAppend_eq_some _ _ _ hca
        subst hs₂
        cases hg₂ : get (store ++
            [AccountEvent.snapshot { det.account with version := det.account.version + 1 },
             AccountEvent.credited id amt now (det.account.version + 1 + 1)]) <;>
          simp only [credit, hg, h9, if_true, creditAccount, hca, hg₂,
            List.drop_left] <;>
          intro e he hm <;>
          simp only [List.mem_cons, List.not_mem_nil, or_false] at he <;>
          rcases he with rfl | rfl <;>
          simp_all [AccountEvent.isMutating, AccountEvent.amount]
    · cases hca : creditAccount store
        (AccountEvent.credited id amt now (det.account.version + 1)) none with
      | none => simp [credit, hg, h9, hca, List.drop_length]
      | some s₂ =>
        simp only [creditAccount] at hca
        have hs₂ := transactAppend_eq_some _ _ _ hca
        subst hs₂
        cases hg₂ : get (store ++
            [AccountEvent.credited id amt now (det.account.version + 1)]) <;>
          simp only [credit, hg, h9, if_false, creditAccount, hca, hg₂,
            List.drop_left] <;>
          intro e he hm <;>
          simp only [List.mem_singleton] at he <;>
          subst he <;>
          simp [AccountEvent.amount]

/-- Every event a `debit` call appends that is a mutating event carries
exactly the requested amount (`debit` validates only sufficiency, never
positivity). -/
theorem debit_appended_amount (store : List AccountEvent) (id : String)
    (amt : Int) (now : String) :
    ∀ e ∈ (debit store id amt now).2.drop store.length,
      e.isMutating = true → e.amount = amt := by
  cases hg : get store with
  | none => simp [debit, hg, List.drop_length]
  | some det =>
    by_cases hins : det.account.availableTokens < amt
    · simp [debit, hg, hins, List.drop_length]
    · by_cases h9 : 9 ≤ det.itemsSinceSnapshot.length
      · cases hca : debitAccount store
          (AccountEvent.debited id amt now (det.account.version + 1 + 1))
          (some (AccountEvent.snapshot
            { det.account with version := det.account.version + 1 })) with
        | none => simp [debit, hg, hins, h9, hca, List.drop_length]
        | some s₂ =>
          simp only [debitAccount] at hca
          have hs₂ := transactAppend_eq_some _ _ _ hca
          subst hs₂
          cases hg₂ : get (store ++
              [AccountEvent.snapshot { det.account with version := det.account.version + 1 },
               AccountEvent.debited id amt now (det.account.version + 1 + 1)]) <;>
            simp only [debit, hg, hins, if_false, h9, if_true, debitAccount, hca,
              hg₂, List.drop_left] <;>
            intro e he hm <;>
            simp only [List.mem_cons, List.not_mem_nil, or_false] at he <;>
            rcases he with rfl | rfl <;>
            simp_all [AccountEvent.isMutating, AccountEvent.amount]
      · cases hca : debitAccount store
          (AccountEvent.debited id amt now (det.account.version + 1)) none with
        | none => simp [debit, hg, hins, h9, hca, List.drop_length]
        | some s₂ =>
          simp only [debitAccount] at hca
          have hs₂ := transactAppend_eq_some _ _ _ hca
          subst hs₂
          cases hg₂ : get (store ++
              [AccountEvent.debited id amt now (det.account.version + 1)]) <;>
            simp only [debit, hg, hins, if_false, h9, debitAccount, hca, hg₂,
              List.drop_left] <;>
            intro e he hm <;>
            simp only [List.mem_singleton] at he <;>
            subst he <;>
            simp [AccountEvent.amount]

/-- C9 counterexample: the operations accept non-positive amounts and
store them — a credit of -5 on a fresh account appends a `CREDITED` event
with amount -5 ≤ 0, and a debit of 0 appends a `DEBITED` event with
amount 0 ≤ 0. -/
theorem spec_c9_counterexample :
    (credit [AccountEvent.created
        { auth0Id := "a0", availableTokens := 1, email := "e@x", id := "id1",
          timestamp := "t", version := 1 },
      AccountEvent.snapshot
        { auth0Id := "a0", availableTokens := 1, email := "e@x", id := "id1",
          timestamp := "t", version := 2 }] "id1" (-5) "t2").2 =
      [AccountEvent.created
        { auth0Id := "a0", availableTokens := 1, email := "e@x", id := "id1",
          timestamp := "t", version := 1 },
       AccountEvent.snapshot
        { auth0Id := "a0", availableTokens := 1, email := "e@x", id := "id1",
          timestamp := "t", version := 2 },
       AccountEvent.credited "id1" (-5) "t2" 3] ∧
    (AccountEvent.credited "id1" (-5) "t2" 3).isMutating = true ∧
    (AccountEvent.credited "id1" (-5) "t2" 3).amount ≤ 0 ∧
    (debit [AccountEvent.created
        { auth0Id := "a0", availableTokens := 1, email := "e@x", id := "id1",
          timestamp := "t", version := 1 },
      AccountEvent.snapshot
        { auth0Id := "a0", availableTokens := 1, email := "e@x", id := "id1",
          timestamp := "t", version := 2 }] "id1" 0 "t2").2 =
      [AccountEvent.created
        { auth0Id := "a0", availableTokens := 1, email := "e@x", id := "id1",
          timestamp := "t", version := 1 },
       AccountEvent.snapshot
        { auth0Id := "a0", availableTokens := 1, email := "e@x", id := "id1",
          timestamp := "t", version := 2 },
       AccountEvent.debited "id1" 0 "t2" 3] ∧
    (AccountEvent.debited "id1" 0 "t2" 3).amount ≤ 0 := by
  decide

/-- C9 (amended): the operations pass the input amount through unchanged
into the stored mutating event — no positivity validation exists — so a
stored mutating event has a positive amount exactly when the input did;
in particular, for every positive input every appended mutating event
carries a positive amount. -/
theorem spec_c9_amount_passthrough (store : List AccountEvent) (id : String)
    (amt : Int) (now : String) (hpos : 0 < amt) :
    (∀ e ∈ (credit store id amt now).2.drop store.length,
        e.isMutating = true → e.amount = amt ∧ 0 < e.amount) ∧
    (∀ e ∈ (debit store id amt now).2.drop store.length,
        e.isMutating = true → e.amount = amt ∧ 0 < e.amount) := by
  constructor
  · intro e he hm
    have ha := credit_appended_amount store id amt now e he hm
    exact ⟨ha, ha ▸ hpos⟩
  · intro e he hm
    have ha := debit_appended_amount store id amt now e he hm
    exact ⟨ha, ha ▸ hpos⟩

/-- Witness for C9 (amended): crediting and debiting 5 on a fresh account
appends mutating events carrying exactly 5 > 0. -/
theorem spec_c9_amount_passthrough_witness :
    (∀ e ∈ (credit [AccountEvent.created
        { auth0Id := "a0", availableTokens := 1, email := "e@x", id := "id1",
          timestamp := "t", version := 1 },
      AccountEvent.snapshot
        { auth0Id := "a0", availableTokens := 1, email := "e@x", id := "id1",
          timestamp := "t", version := 2 }] "id1" 5 "t2").2.drop 2,
        e.isMutating = true → e.amount = 5 ∧ 0 < e.amount) ∧
    (∀ e ∈ (debit [AccountEvent.created
        { auth0Id := "a0", availableTokens := 1, email := "e@x", id := "id1",
          timestamp := "t", version := 1 },
      AccountEvent.snapshot
        { auth0Id := "a0", availableTokens := 1, email := "e@x", id := "id1",
          timestamp := "t", version := 2 }] "id1" 5 "t2").2.drop 2,
        e.isMutating = true → e.amount = 5 ∧ 0 < e.amount) :=
  spec_c9_amount_passthrough
    [AccountEvent.created
      { auth0Id := "a0", availableTokens := 1, email := "e@x", id := "id1",
        timestamp := "t", version := 1 },
     AccountEvent.snapshot
      { auth0Id := "a0", availableTokens := 1, email := "e@x", id := "id1",
        timestamp := "t", version := 2 }] "id1" 5 "t2" (by decide)

/-! ### Change forwarders (C8) -/

/-- C8: each forwarder publishes exactly one outbound entry per
change-feed record, as one batch; the payload is the record's full new
image; the per-kind variant tags each entry with the event's kind field
while the collapsed variant uses the fixed tag CREATED for all records;
and a credit that also wrote a snapshot — a batch of those two records —
yields exactly two forwarded events from that one logical operation. -/
theorem spec_c8_forwarder_batch (records : List StreamRecord) :
    (streamHandler records).length = records.length ∧
    (mainStreamHandler records).length = records.length ∧
    (∀ i : Nat, (streamHandler records)[i]? = (records[i]?).map fun record =>
      { detail := record.newImage, detailType := eventTypeName record.newImage,
        source := "myapp.accounts", resources := [record.eventSourceARN] }) ∧
    (∀ i : Nat, (mainStreamHandler records)[i]? = (records[i]?).map fun record =>
      { detail := record.newImage, detailType := "CREATED",
        source := "myapp.accounts", resources := [record.eventSourceARN] }) ∧
    ∀ (sa : Account) (r₁ cid : String) (camt : Int) (cts : String) (cv : Nat)
      (r₂ : String),
      streamHandler [⟨AccountEvent.snapshot sa, r₁⟩,
          ⟨AccountEvent.credited cid camt cts cv, r₂⟩] =
        [{ detail := AccountEvent.snapshot sa, detailType := "SNAPSHOT",
           source := "myapp.accounts", resources := [r₁] },
         { detail := AccountEvent.credited cid camt cts cv,
           detailType := "CREDITED",
           source := "myapp.accounts", resources := [r₂] }] := by
  refine ⟨by simp [streamHandler], by simp [mainStreamHandler], ?_, ?_, ?_⟩
  · intro i
    simp [streamHandler, List.getElem?_map]
  · intro i
    simp [mainStreamHandler, List.getElem?_map]
  · intro sa r₁ cid camt cts cv r₂
    rfl

/-! ### Listing pagination (C7) -/

/-- Inserting an item whose sort key is fresh keeps the listing strictly
sorted and adds exactly that item. -/
theorem putListItem_fresh (listing : List AccountListItem) (item : AccountListItem)
    (hs : listing.Pairwise
      (fun a b => formatAccountListItemSk a < formatAccountListItemSk b))
    (hf : ∀ x ∈ listing, formatAccountListItemSk x ≠ formatAccountListItemSk item) :
    (putListItem listing item).Pairwise
      (fun a b => formatAccountListItemSk a < formatAccountListItemSk b) ∧
    (putListItem listing item).Perm (item :: listing) := by
  induction listing with
  | nil => exact ⟨by simp [putListItem], by simp [putListItem]⟩
  | cons x xs ih =>
    rw [List.pairwise_cons] at hs
    obtain ⟨hx_lt, hxs⟩ := hs
    by_cases h1 : formatAccountListItemSk item < formatAccountListItemSk x
    · constructor
      · simp only [putListItem, h1, if_true]
        rw [List.pairwise_cons]
        refine ⟨?_, List.pairwise_cons.mpr ⟨hx_lt, hxs⟩⟩
        intro y hy
        rcases List.mem_cons.mp hy with rfl | hy'
        · exact h1
        · exact lt_trans h1 (hx_lt y hy')
      · simp [putListItem, h1]
    · by_cases h2 : formatAccountListItemSk item = formatAccountListItemSk x
      · exact absurd h2.symm (hf x (by simp))
      · have h3 : formatAccountListItemSk x < formatAccountListItemSk item := by
          rcases lt_trichotomy (formatAccountListItemSk item)
            (formatAccountListItemSk x) with h | h | h
          · exact absurd h h1
          · exact absurd h h2
          · exact h
        have hf' : ∀ y ∈ xs,
            formatAccountListItemSk y ≠ formatAccountListItemSk item :=
          fun y hy => hf y (by simp [hy])
        obtain ⟨hps, hpm⟩ := ih hxs hf'
        have hput : putListItem (x :: xs) item = x :: putListItem xs item := by
          simp [putListItem, h1, h2]
        constructor
        · rw [hput, List.pairwise_cons]
          refine ⟨?_, hps⟩
          intro y hy
          rcases List.mem_cons.mp (hpm.mem_iff.mp hy) with rfl | hy'
          · exact h3
          · exact hx_lt y hy'
        · rw [hput]
          exact (hpm.cons x).trans (List.Perm.swap item x xs)

/-- Folding fresh-keyed insertions over a listing: the result stays
strictly sorted and is a permutation of the old listing plus the
inserted items. -/
theorem foldl_putListItem_sorted_perm (inputs : List AccountListItem) :
    ∀ acc : List AccountListItem,
      acc.Pairwise (fun a b => formatAccountListItemSk a < formatAccountListItemSk b) →
      (∀ inp ∈ inputs, ∀ x ∈ acc,
        formatAccountListItemSk x ≠ formatAccountListItemSk inp) →
      inputs.Pairwise
        (fun a b => formatAccountListItemSk a ≠ formatAccountListItemSk b) →
      (inputs.foldl putListItem acc).Pairwise
        (fun a b => formatAccountListItemSk a < formatAccountListItemSk b) ∧
      (inputs.foldl putListItem acc).Perm (acc ++ inputs) := by
  induction inputs with
  | nil => intro acc hs _ _; exact ⟨hs, by simp⟩
  | cons i rest ih =>
    intro acc hs hf hd
    rw [List.pairwise_cons] at hd
    obtain ⟨hd_i, hd_rest⟩ := hd
    have hfi : ∀ x ∈ acc, formatAccountListItemSk x ≠ formatAccountListItemSk i :=
      fun x hx => hf i (by simp) x hx
    obtain ⟨hps, hpm⟩ := putListItem_fresh acc i hs hfi
    have hf' : ∀ inp ∈ rest, ∀ x ∈ putListItem acc i,
        formatAccountListItemSk x ≠ formatAccountListItemSk inp := by
      intro inp hinp x hx
      rcases List.mem_cons.mp (hpm.mem_iff.mp hx) with rfl | hxa
      · exact hd_i inp hinp
      · exact hf inp (by simp [hinp]) x hxa
    obtain ⟨hps₂, hpm₂⟩ := ih (putListItem acc i) hps hf' hd_rest
    refine ⟨hps₂, ?_⟩
    have hstep : (i :: rest).foldl putListItem acc =
        rest.foldl putListItem (putListItem acc i) := rfl
    rw [hstep]
    exact hpm₂.trans ((hpm.append_right rest).trans List.perm_middle.symm)

/-- The listing built by creations with pairwise-distinct emails is
strictly sorted by sort key and holds exactly the created entries. -/
theorem buildListing_sorted_perm (inputs : List AccountListItem)
    (hd : inputs.Pairwise (fun a b => a.email ≠ b.email)) :
    (buildListing inputs).Pairwise
      (fun a b => formatAccountListItemSk a < formatAccountListItemSk b) ∧
    (buildListing inputs).Perm inputs := by
  have hsk : inputs.Pairwise
      (fun a b => formatAccountListItemSk a ≠ formatAccountListItemSk b) := by
    refine hd.imp ?_
    intro a b hab hsk_eq
    apply hab
    have hdata := congrArg String.data hsk_eq
    rw [formatAccountListItemSk, formatAccountListItemSk, String.data_append,
      String.data_append] at hdata
    exact String.ext (List.append_cancel_left hdata)
  obtain ⟨h1, h2⟩ := foldl_putListItem_sorted_perm inputs [] (by simp)
    (by simp) hsk
  exact ⟨h1, by simpa using h2⟩

/-- In a strictly sorted listing, the items with sort key strictly after
a given element's are exactly the items after that element. -/
theorem filter_gt_of_sorted (l₁ l₂ : List AccountListItem) (x : AccountListItem)
    (hs : (l₁ ++ x :: l₂).Pairwise
      (fun a b => formatAccountListItemSk a < formatAccountListItemSk b)) :
    (l₁ ++ x :: l₂).filter
      (fun it => formatAccountListItemSk x < formatAccountListItemSk it) = l₂ := by
  rw [List.pairwise_append] at hs
  obtain ⟨hs₁, hs₂, hcross⟩ := hs
  rw [List.pairwise_cons] at hs₂
  obtain ⟨hx_lt, hs₂'⟩ := hs₂
  rw [List.filter_append]
  have h₁ : l₁.filter
      (fun it => decide (formatAccountListItemSk x < formatAccountListItemSk it)) = [] := by
    rw [List.filter_eq_nil_iff]
    intro a ha
    simp only [decide_eq_true_eq]
    exact lt_asymm (hcross a ha x (by simp))
  have h₂ : (x :: l₂).filter
      (fun it => decide (formatAccountListItemSk x < formatAccountListItemSk it)) = l₂ := by
    rw [List.filter_cons]
    rw [if_neg (by simp)]
    rw [List.filter_eq_self]
    intro a ha
    simp only [decide_eq_true_eq]
    exact hx_lt a ha
  rw [h₁, h₂, List.nil_append]

/-- Driving `getAccountList` from any resumption point of a strictly
sorted listing enumerates exactly the remaining suffix and terminates
with no cursor, given enough calls. -/
theorem listAllPagesAux_complete (listing : List AccountListItem)
    (hs : listing.Pairwise
      (fun a b => formatAccountListItemSk a < formatAccountListItemSk b))
    (p : Nat) (hp : 0 < p) :
    ∀ fuel n (token : Option String),
      itemsAfter listing token = listing.drop n →
      listing.length - n < fuel →
      listAllPagesAux listing p token fuel = (listing.drop n, true) := by
  intro fuel
  induction fuel with
  | zero => intro n token _ hbound; omega
  | succ fuel ih =>
    intro n token hafter hbound
    by_cases hend : listing.length ≤ n
    · have hnil : listing.drop n = [] := List.drop_eq_nil_iff.mpr hend
      simp [listAllPagesAux, getAccountList, hafter, hnil]
    · push_neg at hend
      have hrl : (listing.drop n).length = listing.length - n := List.length_drop n listing
      have hne : ((listing.drop n).take p).isEmpty = false := by
        rw [List.isEmpty_eq_false, List.drop_eq_getElem_cons hend]
        cases hpc : p with
        | zero => omega
        | succ q =>
          simp
          exact hend
      by_cases hpl : p ≤ listing.length - n
      · -- a full page with a continuation token
        have hk : n + (p - 1) < listing.length := by omega
        obtain ⟨x, hxget⟩ : ∃ x, listing[n + (p - 1)] = x := ⟨_, rfl⟩
        have hglast : ((listing.drop n).take p).getLast? = some x := by
          rw [List.getLast?_eq_getElem?]
          have hlt : (List.take p (List.drop n listing)).length = p := by
            rw [List.length_take, hrl]
            exact inf_eq_left.mpr hpl
          rw [hlt, List.getElem?_take]
          rw [if_pos (by omega)]
          rw [List.getElem?_drop]
          rw [List.getElem?_eq_getElem hk, hxget]
        have hpage : getAccountList listing p token =
            ⟨(listing.drop n).take p, some (formatAccountListItemSk x)⟩ := by
          simp only [getAccountList, hafter, hne, Bool.false_eq_true, if_false,
            hrl, hpl, if_true, hglast]
          rfl
        have hsplit : listing = listing.take (n + (p - 1)) ++
            x :: listing.drop (n + (p - 1) + 1) := by
          have h0 := List.take_append_drop (n + (p - 1)) listing
          rw [List.drop_eq_getElem_cons hk, hxget] at h0
          exact h0.symm
        have hfilter : itemsAfter listing (some (formatAccountListItemSk x)) =
            listing.drop (n + p) := by
          have hkp : n + (p - 1) + 1 = n + p := by omega
          have hflt := filter_gt_of_sorted (listing.take (n + (p - 1)))
            (listing.drop (n + (p - 1) + 1)) x (hsplit ▸ hs)
          show listing.filter _ = _
          conv =>
            lhs
            rw [hsplit]
          rw [hflt, hkp]
        have hih := ih (n + p) (some (formatAccountListItemSk x)) hfilter (by omega)
        simp only [listAllPagesAux, hpage, hih]
        rw [← List.drop_drop]
        rw [List.take_append_drop]
      · -- the final partial page, no token
        push_neg at hpl
        have htake : (listing.drop n).take p = listing.drop n :=
          List.take_of_length_le (by omega)
        have hcond : ¬(p ≤ (listing.drop n).length) := by
          rw [hrl]
          omega
        have hne₂ : (listing.drop n).isEmpty = false := by
          rw [List.isEmpty_eq_false]
          intro hcon
          rw [List.drop_eq_nil_iff] at hcon
          omega
        have hpage : getAccountList listing p token = ⟨listing.drop n, none⟩ := by
          simp only [getAccountList, hafter, htake, hne₂, Bool.false_eq_true,
            if_false, hcond]
        simp [listAllPagesAux, hpage]

/-- C7 counterexample: two accounts created with the same email collide on
the listing sort key `account#email`; the unconditioned listing put of the
second account overwrites the first, so pagination enumerates only one of
the two created accounts — the claimed exactly-once enumeration fails. -/
theorem spec_c7_counterexample :
    listAllPages (buildListing
      [⟨"a1", "x@y", "id1"⟩, ⟨"a2", "x@y", "id2"⟩]) 3 =
      ([⟨"a2", "x@y", "id2"⟩], true) ∧
    ¬(listAllPages (buildListing
        [⟨"a1", "x@y", "id1"⟩, ⟨"a2", "x@y", "id2"⟩]) 3).1.Perm
      [⟨"a1", "x@y", "id1"⟩, ⟨"a2", "x@y", "id2"⟩] := by
  have hsk : formatAccountListItemSk (⟨"a2", "x@y", "id2"⟩ : AccountListItem) =
      formatAccountListItemSk ⟨"a1", "x@y", "id1"⟩ := rfl
  have hnlt : ¬(formatAccountListItemSk (⟨"a2", "x@y", "id2"⟩ : AccountListItem) <
      formatAccountListItemSk ⟨"a1", "x@y", "id1"⟩) := by
    rw [hsk]
    exact lt_irrefl _
  have hb : buildListing [⟨"a1", "x@y", "id1"⟩, ⟨"a2", "x@y", "id2"⟩] =
      [⟨"a2", "x@y", "id2"⟩] := by
    simp only [buildListing, List.foldl, putListItem]
    rw [if_neg hnlt, if_pos hsk]
  rw [hb]
  constructor
  · rfl
  · intro hperm
    have hlen := hperm.length_eq
    have hl : listAllPages [(⟨"a2", "x@y", "id2"⟩ : AccountListItem)] 3 =
        ([⟨"a2", "x@y", "id2"⟩], true) := rfl
    rw [hl] at hlen
    simp at hlen

/-- C7 (amended): for accounts created with pairwise-distinct emails,
repeated `getAccountList` calls with page size 3, each passing the
returned cursor to the next call, enumerate every created account exactly
once (a permutation of the created entries), in the stable sort-key
order, with no duplicates and no gaps, terminating with no cursor. -/
theorem spec_c7_pagination_enumerates (inputs : List AccountListItem)
    (hd : inputs.Pairwise (fun a b => a.email ≠ b.email)) :
    listAllPages (buildListing inputs) 3 = (buildListing inputs, true) ∧
    (buildListing inputs).Perm inputs ∧
    (buildListing inputs).Pairwise
      (fun a b => formatAccountListItemSk a < formatAccountListItemSk b) := by
  obtain ⟨hsorted, hperm⟩ := buildListing_sorted_perm inputs hd
  refine ⟨?_, hperm, hsorted⟩
  unfold listAllPages
  have h0 := listAllPagesAux_complete (buildListing inputs) hsorted 3
    (by norm_num) ((buildListing inputs).length + 1) 0 none
    (by simp [itemsAfter]) (by omega)
  simpa using h0

/-- Witness for C7 (amended): three accounts with distinct emails are
enumerated exactly once each, in sort-key order, ending with no cursor. -/
theorem spec_c7_pagination_enumerates_witness :
    listAllPages (buildListing
      [⟨"a1", "c@y", "id1"⟩, ⟨"a2", "a@y", "id2"⟩, ⟨"a3", "b@y", "id3"⟩]) 3 =
      (buildListing
        [⟨"a1", "c@y", "id1"⟩, ⟨"a2", "a@y", "id2"⟩, ⟨"a3", "b@y", "id3"⟩], true) ∧
    (buildListing
      [⟨"a1", "c@y", "id1"⟩, ⟨"a2", "a@y", "id2"⟩, ⟨"a3", "b@y", "id3"⟩]).Perm
      [⟨"a1", "c@y", "id1"⟩, ⟨"a2", "a@y", "id2"⟩, ⟨"a3", "b@y", "id3"⟩] ∧
    (buildListing
      [⟨"a1", "c@y", "id1"⟩, ⟨"a2", "a@y", "id2"⟩, ⟨"a3", "b@y", "id3"⟩]).Pairwise
      (fun a b => formatAccountListItemSk a < formatAccountListItemSk b) :=
  spec_c7_pagination_enumerates
    [⟨"a1", "c@y", "id1"⟩, ⟨"a2", "a@y", "id2"⟩, ⟨"a3", "b@y", "id3"⟩]
    (by decide)

end AccountsES
